import Mathlib

/-!
Verification of the thread-pool repository (namespace EK): the
WaitableQueue, the Semaphore and the ThreadPool are shallowly embedded
from the C++ sources (include/waitable_queue.hpp, src/semaphore.cpp and
the current thread_pool.cpp, whose final revision carries SetNumThreads
and the Resume call inside WaitForTasks).  Blocking operations are
modelled by their completed effect together with the guard that the
underlying condition-variable predicate confirmed under the lock;
concurrent worker activity is modelled by an explicit step relation.
-/

set_option maxHeartbeats 1000000

namespace EK

/-- Modulus of the 64-bit size_t arithmetic used by the C++ sources. -/
def SIZE_T_MOD : Nat := 2 ^ 64

/-! ## WaitableQueue (include/waitable_queue.hpp)

State of WaitableQueue: the underlying std::queue contents (front at the
head of the list) and the size_t counter field. -/

structure WaitableQueue (T : Type) where
  queue : List T
  counter : Nat

/-- Constructor WaitableQueue(): queue empty, counter zero. -/
def WaitableQueue.new (T : Type) : WaitableQueue T :=
  { queue := [], counter := 0 }

/-- Enqueue(value): push value at the tail, increment the counter and
notify one waiter. -/
def WaitableQueue.Enqueue {T : Type} (q : WaitableQueue T) (value : T) : WaitableQueue T :=
  { queue := q.queue ++ [value], counter := q.counter + 1 }

/-- Blocking Dequeue(): the condition variable confirms counter > 0 under
the lock, then the counter is decremented, the front element is read and
popped, and that element is returned.  The definition is the completed
effect of the call; it is only ever invoked on states satisfying the
confirmed guard 0 < counter. -/
def WaitableQueue.Dequeue {T : Type} [Inhabited T] (q : WaitableQueue T) :
    T × WaitableQueue T :=
  (q.queue.headI, { queue := q.queue.tail, counter := q.counter - 1 })

/-- Timed Dequeue(timeout, outparam): wait_for returns the value of the
predicate counter > 0 evaluated under the lock.  In the sequential model
the wait succeeds exactly when an element is available: on success the
counter is decremented, the front element is written to outparam and
popped, and true is returned; on timeout false is returned, nothing is
removed and outparam keeps the value the caller passed in. -/
def WaitableQueue.DequeueTimed {T : Type} [Inhabited T] (q : WaitableQueue T)
    (outparam : T) : Bool × WaitableQueue T × T :=
  if 0 < q.counter then
    (true, { queue := q.queue.tail, counter := q.counter - 1 }, q.queue.headI)
  else
    (false, q, outparam)

/-- IsEmpty(): whether the counter is zero. -/
def WaitableQueue.IsEmpty {T : Type} (q : WaitableQueue T) : Bool :=
  q.counter == 0

/-- Size(): the counter snapshot. -/
def WaitableQueue.Size {T : Type} (q : WaitableQueue T) : Nat :=
  q.counter

/-- One operation of a sequential Enqueue/Dequeue history. -/
inductive QueueOp (T : Type) where
  | enq (v : T)
  | deq

/-- Run a history of queue operations, collecting dequeued values in
order of completion. -/
def runQueueOps {T : Type} [Inhabited T] (q : WaitableQueue T) (outs : List T) :
    List (QueueOp T) → WaitableQueue T × List T
  | [] => (q, outs)
  | QueueOp.enq v :: ops => runQueueOps (q.Enqueue v) outs ops
  | QueueOp.deq :: ops => runQueueOps (q.Dequeue).2 (outs ++ [(q.Dequeue).1]) ops

/-- A history is valid when every blocking Dequeue ran on a state whose
counter was positive, which is exactly what the condition variable
confirms before the removal happens. -/
def ValidQueueOps {T : Type} [Inhabited T] (q : WaitableQueue T) :
    List (QueueOp T) → Prop
  | [] => True
  | QueueOp.enq v :: ops => ValidQueueOps (q.Enqueue v) ops
  | QueueOp.deq :: ops => 0 < q.counter ∧ ValidQueueOps (q.Dequeue).2 ops

/-- The values inserted by a history, in insertion order. -/
def enqueuedOf {T : Type} : List (QueueOp T) → List T
  | [] => []
  | QueueOp.enq v :: ops => v :: enqueuedOf ops
  | QueueOp.deq :: ops => enqueuedOf ops

/-! ## Semaphore (src/semaphore.cpp) -/

structure Semaphore where
  counter : Nat

/-- Constructor Semaphore(initial_count): counter_(initial_count). -/
def Semaphore.construct (initial_count : Nat) : Semaphore :=
  { counter := initial_count }

/-- Release(): increment counter_ (size_t arithmetic) and notify one. -/
def Semaphore.Release (s : Semaphore) : Semaphore :=
  { counter := (s.counter + 1) % SIZE_T_MOD }

/-- Release(n): counter_ += n (size_t arithmetic) and notify all. -/
def Semaphore.ReleaseN (s : Semaphore) (n : Nat) : Semaphore :=
  { counter := (s.counter + n) % SIZE_T_MOD }

/-- Acquire(): the condition variable confirms counter_ > 0 under the
lock and then counter_ is decremented.  The definition is the completed
effect; it is only invoked on states satisfying the confirmed guard. -/
def Semaphore.Acquire (s : Semaphore) : Semaphore :=
  { counter := s.counter - 1 }

/-- TryAcquireFor(timeout): wait_for returns the predicate value. In the
sequential model it succeeds exactly when counter_ > 0, in which case the
counter is decremented and true is returned; otherwise false is returned
and the counter is untouched. -/
def Semaphore.TryAcquireFor (s : Semaphore) : Bool × Semaphore :=
  if 0 < s.counter then (true, s.Acquire) else (false, s)

/-- GetCount(): the counter snapshot. -/
def Semaphore.GetCount (s : Semaphore) : Nat :=
  s.counter

/-- One completed semaphore operation of a sequential history.  The two
TryAcquireFor outcomes are recorded separately. -/
inductive SemOp where
  | release
  | releaseN (n : Nat)
  | acquire
  | tryAcquireSuccess
  | tryAcquireTimeout

/-- Effect of one completed semaphore operation on the counter. -/
def semApply (s : Semaphore) : SemOp → Semaphore
  | SemOp.release => s.Release
  | SemOp.releaseN n => s.ReleaseN n
  | SemOp.acquire => s.Acquire
  | SemOp.tryAcquireSuccess => s.Acquire
  | SemOp.tryAcquireTimeout => s

/-- Guard confirmed under the lock when the operation completed: Acquire
and a successful TryAcquireFor saw a positive counter, a timed-out
TryAcquireFor saw a zero counter at expiry. -/
def semGuard (s : Semaphore) : SemOp → Prop
  | SemOp.acquire => 0 < s.counter
  | SemOp.tryAcquireSuccess => 0 < s.counter
  | SemOp.tryAcquireTimeout => s.counter = 0
  | _ => True

/-- A valid history: every operation ran with its guard confirmed. -/
def SemValid (s : Semaphore) : List SemOp → Prop
  | [] => True
  | op :: ops => semGuard s op ∧ SemValid (semApply s op) ops

/-- Run a history of semaphore operations. -/
def semRun (s : Semaphore) : List SemOp → Semaphore
  | [] => s
  | op :: ops => semRun (semApply s op) ops

/-- Total number of units released by a history. -/
def releasedOf : List SemOp → Nat
  | [] => 0
  | SemOp.release :: ops => 1 + releasedOf ops
  | SemOp.releaseN n :: ops => n + releasedOf ops
  | SemOp.acquire :: ops => releasedOf ops
  | SemOp.tryAcquireSuccess :: ops => releasedOf ops
  | SemOp.tryAcquireTimeout :: ops => releasedOf ops

/-- Total number of units consumed by a history. -/
def acquiredOf : List SemOp → Nat
  | [] => 0
  | SemOp.release :: ops => acquiredOf ops
  | SemOp.releaseN _ :: ops => acquiredOf ops
  | SemOp.acquire :: ops => 1 + acquiredOf ops
  | SemOp.tryAcquireSuccess :: ops => 1 + acquiredOf ops
  | SemOp.tryAcquireTimeout :: ops => acquiredOf ops

/-! ## The size_t resize arithmetic of SetNumThreads -/

/-- Subtraction of size_t values: num_threads - thread_count_ wraps
modulo 2 to the 64. -/
def sizeTSub (a b : Nat) : Nat :=
  (a + (SIZE_T_MOD - b % SIZE_T_MOD)) % SIZE_T_MOD

/-- Conversion static_cast applied to a size_t value, reading it as a
two-complement signed 64-bit value. -/
def toSigned64 (x : Nat) : Int :=
  if x < 2 ^ 63 then (x : Int) else (x : Int) - (SIZE_T_MOD : Int)

/-- Line 159 of the current thread_pool.cpp: the resize delta
std abs of static_cast long long of (num_threads - thread_count_),
computed over the wrapped unsigned difference. -/
def setNumDiff (num_threads thread_count : Nat) : Nat :=
  (toSigned64 (sizeTSub num_threads thread_count)).natAbs

/-! ## ThreadPool (thread_pool.cpp, final revision)

A task on the tasks_ queue is one of the wrapped lambdas the pool ever
enqueues: a wrapped user callable coming through Submit, a pause task
submitted by Pause that acquires pause_sem_, or a terminate-self task
submitted by RemoveThreads that clears the should_run_ flag of the worker
executing it. -/

inductive PoolTask where
  | user (tid : Nat)
  | pauseTask
  | terminateTask
deriving DecidableEq

/-- Pool state.  threads_ maps thread ids to handles; live is its size.
Workers registered there are partitioned into those sitting in the serve
loop (running), those blocked inside a pause task on pause_sem_.Acquire
(blocked) and those that exited the loop and published their id on
joinable_threads_ (joinable). -/
structure ThreadPool where
  thread_count : Nat
  live : Nat
  running : Nat
  blocked : Nat
  joinable : Nat
  tasks : List PoolTask
  is_paused : Bool
  pause_sem : Semaphore

/-- Submit: the wrapped unit of work is enqueued on tasks_. -/
def ThreadPool.Submit (p : ThreadPool) (t : PoolTask) : ThreadPool :=
  { p with tasks := p.tasks ++ [t] }

/-- A for loop of k Submit calls of the same special task, as in Pause
and in RemoveThreads. -/
def ThreadPool.submitLoop (p : ThreadPool) (t : PoolTask) : Nat → ThreadPool
  | 0 => p
  | Nat.succ k => (p.submitLoop t k).Submit t

/-- Pause(): if is_paused_ already holds, return; otherwise submit one
pause task per current worker and set is_paused_. -/
def ThreadPool.Pause (p : ThreadPool) : ThreadPool :=
  if p.is_paused = true then p
  else { p.submitLoop PoolTask.pauseTask p.thread_count with is_paused := true }

/-- Resume(): if is_paused_ does not hold, return; otherwise release
pause_sem_ by thread_count_ and clear is_paused_. -/
def ThreadPool.Resume (p : ThreadPool) : ThreadPool :=
  if p.is_paused = false then p
  else { p with pause_sem := p.pause_sem.ReleaseN p.thread_count, is_paused := false }

/-- CreateThreads(k): spawn k threads running ServeTasks and emplace
them into threads_; each new worker registers should_run_ true and
enters the serve loop. -/
def ThreadPool.CreateThreads (p : ThreadPool) (k : Nat) : ThreadPool :=
  { p with live := p.live + k, running := p.running + k }

/-- One unit of concurrent worker activity, from ServeTasks: a running
worker blocking-dequeues the front task, signals waiting_cv_, and
executes it.  Executing a pause task splits into beginning the
pause_sem_.Acquire call (the worker becomes blocked) and completing it
once the semaphore counter is positive.  Executing a terminate-self task
clears the should_run_ flag of the executing worker, which therefore
leaves the loop and enqueues its id on joinable_threads_. -/
inductive WorkerStep : ThreadPool → ThreadPool → Prop where
  | user : ∀ (p : ThreadPool) (tid : Nat) (rest : List PoolTask),
      0 < p.running → p.tasks = PoolTask.user tid :: rest →
      WorkerStep p { p with tasks := rest }
  | pauseBegin : ∀ (p : ThreadPool) (rest : List PoolTask),
      0 < p.running → p.tasks = PoolTask.pauseTask :: rest →
      WorkerStep p
        { p with tasks := rest, running := p.running - 1, blocked := p.blocked + 1 }
  | pauseEnd : ∀ p : ThreadPool,
      0 < p.blocked → 0 < p.pause_sem.counter →
      WorkerStep p
        { p with blocked := p.blocked - 1, running := p.running + 1,
                 pause_sem := p.pause_sem.Acquire }
  | terminate : ∀ (p : ThreadPool) (rest : List PoolTask),
      0 < p.running → p.tasks = PoolTask.terminateTask :: rest →
      WorkerStep p
        { p with tasks := rest, running := p.running - 1, joinable := p.joinable + 1 }

/-- During RemoveThreads the second for loop joins back terminated
workers: it interleaves with worker activity, and each of its k
iterations blocking-dequeues an id from joinable_threads_, erases that
entry from threads_ and joins the thread.  The Nat component counts the
iterations still to perform. -/
inductive RemoveStep : ThreadPool × Nat → ThreadPool × Nat → Prop where
  | worker : ∀ (p q : ThreadPool) (j : Nat),
      WorkerStep p q → RemoveStep (p, j) (q, j)
  | join : ∀ (p : ThreadPool) (j : Nat),
      0 < j → 0 < p.joinable →
      RemoveStep (p, j) ({ p with joinable := p.joinable - 1, live := p.live - 1 }, j - 1)

/-- RemoveThreads(k) returns in state q: it first submits k
terminate-self tasks, then completes all k blocking join iterations,
workers acting concurrently throughout. -/
def ThreadPool.RemoveThreadsReturns (p : ThreadPool) (k : Nat) (q : ThreadPool) : Prop :=
  Relation.ReflTransGen RemoveStep (p.submitLoop PoolTask.terminateTask k, k) (q, 0)

/-- SetNumThreads(num_threads) returns in state q: with diff the wrapped
absolute difference, the call runs CreateThreads diff when growing and
otherwise completes RemoveThreads diff, and finally stores num_threads
into thread_count_. -/
def ThreadPool.SetNumThreadsReturns (p : ThreadPool) (num_threads : Nat) (q : ThreadPool) : Prop :=
  if p.thread_count < num_threads then
    q = { p.CreateThreads (setNumDiff num_threads p.thread_count) with
          thread_count := num_threads }
  else
    ∃ r : ThreadPool,
      p.RemoveThreadsReturns (setNumDiff num_threads p.thread_count) r ∧
      q = { r with thread_count := num_threads }

/-- WaitForTasks() returns in state q: it first calls Resume(), then
blocks on waiting_cv_ until tasks_.IsEmpty(); q is a state reached from
the resumed pool by worker activity in which the task queue is empty. -/
def ThreadPool.WaitForTasksReturns (p q : ThreadPool) : Prop :=
  Relation.ReflTransGen WorkerStep p.Resume q ∧ q.tasks = []

/-! ## The task wrapper built by Submit (include/thread_pool.hpp)

A C++ computation that may throw is a value of Except E A: ok for a
normal return, error for a raised exception.  The promise attached to a
submitted task ends up holding either the returned value or the captured
exception, and the matching future re-raises the latter only when the
caller observes it. -/

inductive FutureState (E A : Type) where
  | value (v : A)
  | exception (e : E)

/-- The lambda Submit enqueues for a non-void callable:
try, set_value of task_function(); catch any exception and
set_exception it.  Its own outcome is ok of the resulting promise state:
the catch-all handler keeps any exception from escaping the worker. -/
def runSubmittedTask {E A : Type} (task_function : Unit → Except E A) :
    Except E (FutureState E A) :=
  match task_function () with
  | Except.ok v => Except.ok (FutureState.value v)
  | Except.error e => Except.ok (FutureState.exception e)

/-- The lambda Submit enqueues for a void callable: try, run
task_function() then set_value(); catch any exception and set_exception
it. -/
def runSubmittedTaskVoid {E : Type} (task_function : Unit → Except E Unit) :
    Except E (FutureState E Unit) :=
  match task_function () with
  | Except.ok _ => Except.ok (FutureState.value ())
  | Except.error e => Except.ok (FutureState.exception e)

/-- Observing the result handle: future get returns the stored value or
re-raises the stored exception at observation time. -/
def futureGet {E A : Type} : FutureState E A → Except E A
  | FutureState.value v => Except.ok v
  | FutureState.exception e => Except.error e

/-! ## Value categories through Submit (include/thread_pool.hpp)

Submit builds the stored callable with
std function assigned from std bind of the forwarded task and arguments.
The relevant semantics of std bind: each bound argument is decay-copied
into the bind object (move-constructed when the caller passed an rvalue,
copy-constructed when the caller passed an lvalue), and on invocation
every ordinary stored argument is passed to the wrapped callable as an
lvalue.  An argument is summarised by the value category the caller used
at the Submit call site. -/

inductive ValueCategory where
  | lvalue
  | rvalue
deriving DecidableEq

/-- The overloaded consumer of the repository test suite: the overload
taking a const lvalue reference returns 1, the overload taking an rvalue
reference returns 0. -/
def CheckPerfectForwarding : ValueCategory → Int
  | ValueCategory.lvalue => 1
  | ValueCategory.rvalue => 0

/-- The bind object: whether the argument was move-constructed into
storage, and the wrapped callable, dispatching on the value category of
the argument it is eventually invoked with. -/
structure BoundCall (A : Type) where
  movedIntoStorage : Bool
  callable : ValueCategory → A

/-- std bind of a callable and one forwarded argument. -/
def stdBind {A : Type} (f : ValueCategory → A) (arg_cat : ValueCategory) : BoundCall A :=
  { movedIntoStorage := decide (arg_cat = ValueCategory.rvalue)
    callable := f }

/-- Invoking the bind object: the stored argument is passed to the
wrapped callable as an lvalue, whatever category the caller used. -/
def invokeBoundCall {A : Type} (b : BoundCall A) : A :=
  b.callable ValueCategory.lvalue

/-- Submitting an overloaded consumer with one argument of the given
value category and later running the wrapped task on a worker. -/
def SubmitThenRun {A : Type} (f : ValueCategory → A) (arg_cat : ValueCategory) : A :=
  invokeBoundCall (stdBind f arg_cat)

/-! ## Helper lemmas -/

/-- The wrapped size_t subtraction followed by the signed cast and abs
recovers the exact absolute difference whenever that difference is below
2 to the 63. -/
theorem setNumDiff_exact (n c : Nat) (hn : n < SIZE_T_MOD) (hc : c < SIZE_T_MOD)
    (h : ((n : Int) - (c : Int)).natAbs < 2 ^ 63) :
    setNumDiff n c = ((n : Int) - (c : Int)).natAbs := by
  have hM : SIZE_T_MOD = 2 ^ 64 := rfl
  unfold setNumDiff sizeTSub toSigned64
  rcases Nat.le_total c n with hle | hle
  · have hcm : c % SIZE_T_MOD = c := Nat.mod_eq_of_lt hc
    rw [hcm]
    have h1 : (n + (SIZE_T_MOD - c)) % SIZE_T_MOD = n - c := by
      rw [hM] at hn hc ⊢
      omega
    rw [h1, if_pos (by omega)]
    omega
  · have hcm : c % SIZE_T_MOD = c := Nat.mod_eq_of_lt hc
    rw [hcm]
    by_cases heq : n = c
    · subst heq
      have h1 : (n + (SIZE_T_MOD - n)) % SIZE_T_MOD = 0 := by
        rw [hM] at hn ⊢
        omega
      rw [h1, if_pos (by norm_num)]
      omega
    · have hlt : n < c := by omega
      have h1 : (n + (SIZE_T_MOD - c)) % SIZE_T_MOD = SIZE_T_MOD - (c - n) := by
        rw [hM] at hn hc ⊢
        omega
      rw [h1, if_neg (by rw [hM] at hc ⊢; omega)]
      rw [hM] at hc ⊢
      omega

/-- The Submit loop only appends to the task queue. -/
theorem submitLoop_spec (p : ThreadPool) (t : PoolTask) : ∀ k : Nat,
    (p.submitLoop t k).tasks = p.tasks ++ List.replicate k t ∧
    (p.submitLoop t k).thread_count = p.thread_count ∧
    (p.submitLoop t k).live = p.live ∧
    (p.submitLoop t k).running = p.running ∧
    (p.submitLoop t k).blocked = p.blocked ∧
    (p.submitLoop t k).joinable = p.joinable ∧
    (p.submitLoop t k).is_paused = p.is_paused ∧
    (p.submitLoop t k).pause_sem = p.pause_sem := by
  intro k
  induction k with
  | zero => simp [ThreadPool.submitLoop]
  | succ k ih =>
    obtain ⟨h1, h2, h3, h4, h5, h6, h7, h8⟩ := ih
    refine ⟨?_, h2, h3, h4, h5, h6, h7, h8⟩
    simp only [ThreadPool.submitLoop, ThreadPool.Submit, h1]
    rw [List.append_assoc, List.replicate_succ']

/-- A worker step never touches the pause flag, the recorded thread
count or the thread map, and conserves the number of workers that are
running, blocked or awaiting join. -/
theorem workerStep_fields {p q : ThreadPool} (h : WorkerStep p q) :
    q.is_paused = p.is_paused ∧ q.thread_count = p.thread_count ∧
    q.live = p.live ∧
    q.running + q.blocked + q.joinable = p.running + p.blocked + p.joinable := by
  cases h with
  | user tid rest hr ht => exact ⟨rfl, rfl, rfl, rfl⟩
  | pauseBegin rest hr ht => refine ⟨rfl, rfl, rfl, ?_⟩; simp; omega
  | pauseEnd hb hs => refine ⟨rfl, rfl, rfl, ?_⟩; simp; omega
  | terminate rest hr ht => refine ⟨rfl, rfl, rfl, ?_⟩; simp; omega

/-- Closure of workerStep_fields under many steps. -/
theorem workerSteps_fields {p q : ThreadPool}
    (h : Relation.ReflTransGen WorkerStep p q) :
    q.is_paused = p.is_paused ∧ q.thread_count = p.thread_count ∧
    q.live = p.live ∧
    q.running + q.blocked + q.joinable = p.running + p.blocked + p.joinable := by
  induction h with
  | refl => exact ⟨rfl, rfl, rfl, rfl⟩
  | tail hab hbc ih =>
    obtain ⟨i1, i2, i3, i4⟩ := ih
    obtain ⟨j1, j2, j3, j4⟩ := workerStep_fields hbc
    exact ⟨j1.trans i1, j2.trans i2, j3.trans i3, j4.trans i4⟩

/-- Along the join loop of RemoveThreads, every join erases exactly one
worker from the thread map, and the partition of registered workers into
running, blocked and joinable is conserved by worker activity. -/
theorem removeSteps_spec {x y : ThreadPool × Nat}
    (h : Relation.ReflTransGen RemoveStep x y)
    (hinv : x.1.live = x.1.running + x.1.blocked + x.1.joinable) :
    y.1.live = y.1.running + y.1.blocked + y.1.joinable ∧
    y.1.live + x.2 = x.1.live + y.2 ∧
    y.1.is_paused = x.1.is_paused ∧
    y.1.thread_count = x.1.thread_count := by
  induction h with
  | refl => exact ⟨hinv, rfl, rfl, rfl⟩
  | tail hab hbc ih =>
    obtain ⟨i1, i2, i3, i4⟩ := ih
    cases hbc with
    | worker p q j hw =>
      obtain ⟨j1, j2, j3, j4⟩ := workerStep_fields hw
      dsimp only at i1 i2 i3 i4 ⊢
      refine ⟨by omega, by omega, j1.trans i3, j2.trans i4⟩
    | join p j hj hjoin =>
      dsimp only at i1 i2 i3 i4 ⊢
      refine ⟨by omega, by omega, i3, i4⟩

/-- A valid queue history stays valid when truncated. -/
theorem validQueueOps_append_left {T : Type} [Inhabited T] :
    ∀ (l₁ l₂ : List (QueueOp T)) (q : WaitableQueue T),
      ValidQueueOps q (l₁ ++ l₂) → ValidQueueOps q l₁ := by
  intro l₁
  induction l₁ with
  | nil => intro l₂ q _; trivial
  | cons op l ih =>
    intro l₂ q hv
    cases op with
    | enq v => exact ih l₂ (q.Enqueue v) hv
    | deq => exact ⟨hv.1, ih l₂ (q.Dequeue).2 hv.2⟩

/-- Running a valid history preserves the counter invariant and moves
every enqueued element, in order, either to the output or to the queue. -/
theorem runQueueOps_spec {T : Type} [Inhabited T] :
    ∀ (ops : List (QueueOp T)) (q : WaitableQueue T) (outs : List T),
      q.counter = q.queue.length → ValidQueueOps q ops →
      (runQueueOps q outs ops).1.counter = (runQueueOps q outs ops).1.queue.length ∧
      (runQueueOps q outs ops).2 ++ (runQueueOps q outs ops).1.queue
        = outs ++ q.queue ++ enqueuedOf ops := by
  intro ops
  induction ops with
  | nil =>
    intro q outs hlen _
    simp [runQueueOps, enqueuedOf, hlen]
  | cons op ops ih =>
    intro q outs hlen hv
    cases op with
    | enq v =>
      have hlen2 : (q.Enqueue v).counter = (q.Enqueue v).queue.length := by
        simp [WaitableQueue.Enqueue, hlen]
      obtain ⟨i1, i2⟩ := ih (q.Enqueue v) outs hlen2 hv
      refine ⟨i1, ?_⟩
      rw [show runQueueOps q outs (QueueOp.enq v :: ops) = runQueueOps (q.Enqueue v) outs ops from rfl]
      rw [i2]
      simp [WaitableQueue.Enqueue, enqueuedOf]
    | deq =>
      obtain ⟨hpos, hrest⟩ := hv
      cases hq : q.queue with
      | nil => rw [hq] at hlen; simp at hlen; omega
      | cons v rest =>
        have hhead : (q.Dequeue).1 = v := by
          simp [WaitableQueue.Dequeue, hq]
        have hq2 : (q.Dequeue).2 = { queue := rest, counter := q.counter - 1 } := by
          simp [WaitableQueue.Dequeue, hq]
        have hlen2 : (q.Dequeue).2.counter = (q.Dequeue).2.queue.length := by
          rw [hq2]
          rw [hq] at hlen
          simp at hlen ⊢
          omega
        obtain ⟨i1, i2⟩ := ih (q.Dequeue).2 (outs ++ [(q.Dequeue).1]) hlen2 hrest
        refine ⟨i1, ?_⟩
        rw [show runQueueOps q outs (QueueOp.deq :: ops)
              = runQueueOps (q.Dequeue).2 (outs ++ [(q.Dequeue).1]) ops from rfl]
        rw [i2, hhead, hq2]
        simp [enqueuedOf]

/-- A valid semaphore history stays valid when truncated. -/
theorem semValid_append_left :
    ∀ (l₁ l₂ : List SemOp) (s : Semaphore),
      SemValid s (l₁ ++ l₂) → SemValid s l₁ := by
  intro l₁
  induction l₁ with
  | nil => intro l₂ s _; trivial
  | cons op l ih => exact fun l₂ s hv => ⟨hv.1, ih l₂ (semApply s op) hv.2⟩

/-- Released units add up over concatenation. -/
theorem releasedOf_append :
    ∀ l₁ l₂ : List SemOp, releasedOf (l₁ ++ l₂) = releasedOf l₁ + releasedOf l₂ := by
  intro l₁
  induction l₁ with
  | nil => intro l₂; simp [releasedOf]
  | cons op l ih =>
    intro l₂
    cases op <;> simp [releasedOf, ih] <;> omega

/-- Ledger exactness: on a valid history whose releases never overflow
the size_t counter, the final counter is exactly the initial counter
plus all released units minus all consumed units, with no wraparound and
no lost or spurious unit. -/
theorem semRun_ledger :
    ∀ (ops : List SemOp) (s : Semaphore),
      SemValid s ops → s.counter + releasedOf ops < SIZE_T_MOD →
      (semRun s ops).counter + acquiredOf ops = s.counter + releasedOf ops := by
  intro ops
  induction ops with
  | nil => intro s _ _; simp [semRun, acquiredOf, releasedOf]
  | cons op rest ih =>
    intro s hv hover
    obtain ⟨hg, hrest⟩ := hv
    have hM : SIZE_T_MOD = 2 ^ 64 := rfl
    cases op with
    | release =>
      have hstep : (semApply s SemOp.release).counter = s.counter + 1 := by
        simp only [semApply, Semaphore.Release]
        rw [hM] at hover ⊢
        simp only [releasedOf] at hover
        omega
      have := ih (semApply s SemOp.release)  hrest (by
        rw [hstep]
        simp only [releasedOf] at hover ⊢
        omega)
      simp only [semRun, acquiredOf, releasedOf]
      omega
    | releaseN n =>
      have hstep : (semApply s (SemOp.releaseN n)).counter = s.counter + n := by
        simp only [semApply, Semaphore.ReleaseN]
        rw [hM] at hover ⊢
        simp only [releasedOf] at hover
        omega
      have := ih (semApply s (SemOp.releaseN n)) hrest (by
        rw [hstep]
        simp only [releasedOf] at hover ⊢
        omega)
      simp only [semRun, acquiredOf, releasedOf]
      omega
    | acquire =>
      simp only [semGuard] at hg
      have hstep : (semApply s SemOp.acquire).counter = s.counter - 1 := rfl
      have := ih (semApply s SemOp.acquire) hrest (by
        rw [hstep]
        simp only [releasedOf] at hover ⊢
        omega)
      simp only [semRun, acquiredOf, releasedOf]
      omega
    | tryAcquireSuccess =>
      simp only [semGuard] at hg
      have hstep : (semApply s SemOp.tryAcquireSuccess).counter = s.counter - 1 := rfl
      have := ih (semApply s SemOp.tryAcquireSuccess) hrest (by
        rw [hstep]
        simp only [releasedOf] at hover ⊢
        omega)
      simp only [semRun, acquiredOf, releasedOf]
      omega
    | tryAcquireTimeout =>
      have hstep : semApply s SemOp.tryAcquireTimeout = s := rfl
      have := ih (semApply s SemOp.tryAcquireTimeout) hrest (by
        rw [hstep]
        simp only [releasedOf] at hover ⊢
        exact hover)
      rw [hstep] at this
      simp only [semRun, acquiredOf, releasedOf, hstep]
      omega

/-! ## Claim theorems -/

/-- C9: the resize delta of SetNumThreads is computed from the unsigned
wraparound difference num_threads - thread_count_ by the signed 64-bit
cast and abs; whenever the true difference has magnitude below 2 to the
63, the computed delta is exactly that magnitude, so CreateThreads and
RemoveThreads receive the exact number of workers to add or remove, also
when num_threads is below thread_count_. -/
theorem setNumDiff_wraparound_is_exact (num_threads thread_count : Nat)
    (h1 : num_threads < SIZE_T_MOD) (h2 : thread_count < SIZE_T_MOD)
    (h3 : ((num_threads : Int) - (thread_count : Int)).natAbs < 2 ^ 63) :
    setNumDiff num_threads thread_count
      = ((num_threads : Int) - (thread_count : Int)).natAbs :=
  setNumDiff_exact num_threads thread_count h1 h2 h3

/-- Witness for C9 at the concrete shrink input (1, 3): the delta is 2. -/
theorem setNumDiff_wraparound_is_exact_witness :
    (1 : Nat) < SIZE_T_MOD ∧ (3 : Nat) < SIZE_T_MOD ∧
    ((1 : Int) - (3 : Int)).natAbs < 2 ^ 63 ∧
    setNumDiff 1 3 = ((1 : Int) - (3 : Int)).natAbs :=
  ⟨by decide, by decide, by decide,
    setNumDiff_wraparound_is_exact 1 3 (by decide) (by decide) (by decide)⟩

/-- C10: on a non-empty queue state the blocking Dequeue and the timed
Dequeue agree: the timed form succeeds, writes to the outparam exactly
the value the blocking form returns, and leaves exactly the queue state
the blocking form leaves. -/
theorem dequeue_blocking_equals_timed_success {T : Type} [Inhabited T]
    (q : WaitableQueue T) (outparam : T) (h : 0 < q.counter) :
    q.DequeueTimed outparam = (true, (q.Dequeue).2, (q.Dequeue).1) := by
  unfold WaitableQueue.DequeueTimed WaitableQueue.Dequeue
  rw [if_pos h]

/-- Witness for C10 on the queue holding 5 then 7. -/
theorem dequeue_blocking_equals_timed_success_witness :
    0 < (WaitableQueue.mk [5, 7] 2 : WaitableQueue Nat).counter ∧
    (WaitableQueue.mk [5, 7] 2 : WaitableQueue Nat).DequeueTimed 0
      = (true, ((WaitableQueue.mk [5, 7] 2 : WaitableQueue Nat).Dequeue).2,
          ((WaitableQueue.mk [5, 7] 2 : WaitableQueue Nat).Dequeue).1) :=
  ⟨by decide,
    dequeue_blocking_equals_timed_success (WaitableQueue.mk [5, 7] 2) 0 (by decide)⟩

/-- C7: a timed Dequeue that times out returns false, modifies neither
the outparam nor the queue, and removes nothing; a timed Dequeue that
finds an element returns true, writes the head element into the outparam
and removes exactly that element. -/
theorem dequeue_timed_timeout_leaves_state {T : Type} [Inhabited T]
    (q : WaitableQueue T) (outparam : T) :
    (q.counter = 0 → q.DequeueTimed outparam = (false, q, outparam)) ∧
    (0 < q.counter → q.counter = q.queue.length →
      ∃ v rest, q.queue = v :: rest ∧
        q.DequeueTimed outparam
          = (true, { queue := rest, counter := q.counter - 1 }, v)) := by
  constructor
  · intro h
    unfold WaitableQueue.DequeueTimed
    rw [if_neg (by omega)]
  · intro hpos hlen
    cases hq : q.queue with
    | nil => rw [hq] at hlen; simp at hlen; omega
    | cons v rest =>
      refine ⟨v, rest, rfl, ?_⟩
      unfold WaitableQueue.DequeueTimed
      rw [if_pos hpos, hq]
      simp

/-- Witness for C7: timeout on the empty Nat queue leaves the outparam 9
and the queue untouched; success on the queue holding 1234 yields 1234. -/
theorem dequeue_timed_timeout_leaves_state_witness :
    ((WaitableQueue.new Nat).counter = 0 ∧
      (WaitableQueue.new Nat).DequeueTimed 9 = (false, WaitableQueue.new Nat, 9)) ∧
    (0 < (WaitableQueue.mk [1234] 1 : WaitableQueue Nat).counter ∧
      (WaitableQueue.mk [1234] 1 : WaitableQueue Nat).counter
        = (WaitableQueue.mk [1234] 1 : WaitableQueue Nat).queue.length ∧
      ∃ v rest, (WaitableQueue.mk [1234] 1 : WaitableQueue Nat).queue = v :: rest ∧
        (WaitableQueue.mk [1234] 1 : WaitableQueue Nat).DequeueTimed 9
          = (true, { queue := rest, counter := 0 }, v)) :=
  ⟨⟨rfl, (dequeue_timed_timeout_leaves_state (WaitableQueue.new Nat) 9).1 rfl⟩,
    ⟨by decide, by decide,
      (dequeue_timed_timeout_leaves_state (WaitableQueue.mk [1234] 1) 9).2
        (by decide) (by decide)⟩⟩

/-- C2, evaluated at the failing input: submitting the overloaded
consumer with an explicitly moved (rvalue) argument and running the
wrapped task invokes the lvalue-accepting overload (result 1), because
std bind passes its stored argument to the callable as an lvalue; the
rvalue-accepting overload (result 0) demanded by the claim is not
invoked.  The value category only governs how the argument enters
storage (an rvalue argument is move-constructed in). -/
theorem submit_moved_argument_runs_lvalue_overload :
    SubmitThenRun CheckPerfectForwarding ValueCategory.rvalue
        = CheckPerfectForwarding ValueCategory.lvalue ∧
    CheckPerfectForwarding ValueCategory.lvalue = 1 ∧
    CheckPerfectForwarding ValueCategory.rvalue = 0 ∧
    (stdBind CheckPerfectForwarding ValueCategory.rvalue).movedIntoStorage = true :=
  ⟨rfl, rfl, rfl, rfl⟩

/-- C5: for every submitted callable, the wrapper Submit enqueues never
lets an exception escape on the worker (its own outcome is ok), and the
result handle it fills reproduces the outcome of the callable exactly
when observed: a normal return is delivered as the value, an exception
is re-raised only at observation.  Both the non-void and the void
wrapper satisfy this. -/
theorem submit_wrapper_captures_exceptions (E A : Type)
    (task_function : Unit → Except E A) (void_task : Unit → Except E Unit) :
    (∃ s, runSubmittedTask task_function = Except.ok s ∧
        futureGet s = task_function ()) ∧
    (∃ s, runSubmittedTaskVoid void_task = Except.ok s ∧
        futureGet s = void_task ()) := by
  constructor
  · cases h : task_function () with
    | ok v =>
      exact ⟨FutureState.value v, by simp [runSubmittedTask, h], by simp [futureGet, h]⟩
    | error e =>
      exact ⟨FutureState.exception e, by simp [runSubmittedTask, h], by simp [futureGet, h]⟩
  · cases h : void_task () with
    | ok u =>
      cases u
      exact ⟨FutureState.value (), by simp [runSubmittedTaskVoid, h], by simp [futureGet, h]⟩
    | error e =>
      exact ⟨FutureState.exception e, by simp [runSubmittedTaskVoid, h], by simp [futureGet, h]⟩

/-- C6: over any valid sequential Enqueue/Dequeue history started on a
fresh queue, the dequeued values followed by the remaining queue contents
are exactly the enqueued values in insertion order (FIFO, nothing lost),
hence the dequeued and remaining multisets partition the enqueued
multiset (nothing duplicated), and at every point of the history the
Size counter equals the number of elements physically present. -/
theorem queue_fifo_and_conservation (T : Type) [Inhabited T]
    (ops : List (QueueOp T))
    (hvalid : ValidQueueOps (WaitableQueue.new T) ops) :
    (runQueueOps (WaitableQueue.new T) [] ops).2
        ++ (runQueueOps (WaitableQueue.new T) [] ops).1.queue = enqueuedOf ops ∧
    ((runQueueOps (WaitableQueue.new T) [] ops).2 : Multiset T)
        + ((runQueueOps (WaitableQueue.new T) [] ops).1.queue : Multiset T)
        = (enqueuedOf ops : Multiset T) ∧
    (∀ l₁ l₂ : List (QueueOp T), ops = l₁ ++ l₂ →
      (runQueueOps (WaitableQueue.new T) [] l₁).1.Size
        = (runQueueOps (WaitableQueue.new T) [] l₁).1.queue.length) := by
  have hbase : (WaitableQueue.new T).counter = (WaitableQueue.new T).queue.length := rfl
  obtain ⟨h1, h2⟩ := runQueueOps_spec ops (WaitableQueue.new T) [] hbase hvalid
  have hfifo : (runQueueOps (WaitableQueue.new T) [] ops).2
      ++ (runQueueOps (WaitableQueue.new T) [] ops).1.queue = enqueuedOf ops := by
    simpa [WaitableQueue.new] using h2
  refine ⟨hfifo, ?_, ?_⟩
  · rw [Multiset.coe_add]
    exact congrArg _ hfifo
  · intro l₁ l₂ hsplit
    subst hsplit
    have hv1 := validQueueOps_append_left l₁ l₂ _ hvalid
    exact (runQueueOps_spec l₁ (WaitableQueue.new T) [] hbase hv1).1

/-- Witness for C6 on the history enqueue 1, dequeue, enqueue 2. -/
theorem queue_fifo_and_conservation_witness :
    ValidQueueOps (WaitableQueue.new Nat)
        [QueueOp.enq 1, QueueOp.deq, QueueOp.enq 2] ∧
    (runQueueOps (WaitableQueue.new Nat) []
          [QueueOp.enq 1, QueueOp.deq, QueueOp.enq 2]).2
        ++ (runQueueOps (WaitableQueue.new Nat) []
              [QueueOp.enq 1, QueueOp.deq, QueueOp.enq 2]).1.queue
      = enqueuedOf [QueueOp.enq 1, QueueOp.deq, QueueOp.enq 2] :=
  have hv : ValidQueueOps (WaitableQueue.new Nat)
      [QueueOp.enq 1, QueueOp.deq, QueueOp.enq 2] := by
    simp only [ValidQueueOps]
    exact ⟨by decide, trivial⟩
  ⟨hv, (queue_fifo_and_conservation Nat _ hv).1⟩

/-- C8: the semaphore counter is never negative and every operation
moves it exactly as specified: GetCount reads it, Release adds one,
Release of n adds n, a completed Acquire and a successful TryAcquireFor
subtract one under the confirmed positivity guard, a successful
TryAcquireFor returns true, a timed-out TryAcquireFor returns false and
changes nothing; and along every valid overflow-free history each
reachable counter value is exactly the initial count plus released units
minus consumed units, so no decrement ever underflows. -/
theorem semaphore_exact_counter :
    (∀ s : Semaphore, s.GetCount = s.counter) ∧
    (∀ s : Semaphore, s.counter + 1 < SIZE_T_MOD →
       s.Release.counter = s.counter + 1) ∧
    (∀ (s : Semaphore) (n : Nat), s.counter + n < SIZE_T_MOD →
       (s.ReleaseN n).counter = s.counter + n) ∧
    (∀ s : Semaphore, 0 < s.counter → s.Acquire.counter = s.counter - 1) ∧
    (∀ s : Semaphore, 0 < s.counter →
       s.TryAcquireFor.1 = true ∧ s.TryAcquireFor.2.counter = s.counter - 1) ∧
    (∀ s : Semaphore, s.counter = 0 → s.TryAcquireFor = (false, s)) ∧
    (∀ (c0 : Nat) (ops : List SemOp),
       SemValid (Semaphore.construct c0) ops →
       c0 + releasedOf ops < SIZE_T_MOD →
       ∀ l₁ l₂ : List SemOp, ops = l₁ ++ l₂ →
         (semRun (Semaphore.construct c0) l₁).counter + acquiredOf l₁
           = c0 + releasedOf l₁) := by
  have hM : SIZE_T_MOD = 2 ^ 64 := rfl
  refine ⟨fun s => rfl, ?_, ?_, fun s h => rfl, ?_, ?_, ?_⟩
  · intro s h
    simp only [Semaphore.Release]
    rw [hM] at h ⊢
    omega
  · intro s n h
    simp only [Semaphore.ReleaseN]
    rw [hM] at h ⊢
    omega
  · intro s h
    unfold Semaphore.TryAcquireFor
    rw [if_pos h]
    exact ⟨rfl, rfl⟩
  · intro s h
    unfold Semaphore.TryAcquireFor
    rw [if_neg (by omega)]
  · intro c0 ops hv hover l₁ l₂ hsplit
    subst hsplit
    have hv1 := semValid_append_left l₁ l₂ _ hv
    have hover1 : (Semaphore.construct c0).counter + releasedOf l₁ < SIZE_T_MOD := by
      rw [releasedOf_append] at hover
      simp only [Semaphore.construct] at hover ⊢
      omega
    exact semRun_ledger l₁ (Semaphore.construct c0) hv1 hover1

/-- Witness for C8 on the history release then acquire from count 1. -/
theorem semaphore_exact_counter_witness :
    SemValid (Semaphore.construct 1) [SemOp.release, SemOp.acquire] ∧
    1 + releasedOf [SemOp.release, SemOp.acquire] < SIZE_T_MOD ∧
    (semRun (Semaphore.construct 1) [SemOp.release, SemOp.acquire]).counter
        + acquiredOf [SemOp.release, SemOp.acquire]
      = 1 + releasedOf [SemOp.release, SemOp.acquire] :=
  have hv : SemValid (Semaphore.construct 1) [SemOp.release, SemOp.acquire] := by
    simp only [SemValid, semGuard, semApply]
    exact ⟨trivial, by decide, trivial⟩
  ⟨hv, by decide,
    semaphore_exact_counter.2.2.2.2.2.2 1 [SemOp.release, SemOp.acquire] hv
      (by decide) [SemOp.release, SemOp.acquire] [] rfl⟩

/-- C3: WaitForTasks first forces a resume, so after it returns the
paused flag is down no matter whether the pool was paused, and it
returns only once the task queue is observed empty: at the moment of
return the pool is unpaused and the task queue is empty. -/
theorem waitForTasks_resumes_then_drains (p q : ThreadPool)
    (h : p.WaitForTasksReturns q) :
    q.is_paused = false ∧ q.tasks = [] := by
  obtain ⟨hsteps, hempty⟩ := h
  refine ⟨?_, hempty⟩
  have h1 : p.Resume.is_paused = false := by
    unfold ThreadPool.Resume
    by_cases hp : p.is_paused = false
    · rw [if_pos hp]; exact hp
    · rw [if_neg hp]
  exact ((workerSteps_fields hsteps).1).trans h1

/-- Witness for C3 on an idle unpaused pool with an empty queue. -/
theorem waitForTasks_resumes_then_drains_witness :
    (ThreadPool.mk 1 1 1 0 0 [] false ⟨0⟩).WaitForTasksReturns
        (ThreadPool.mk 1 1 1 0 0 [] false ⟨0⟩) ∧
    ((ThreadPool.mk 1 1 1 0 0 [] false ⟨0⟩).is_paused = false ∧
      (ThreadPool.mk 1 1 1 0 0 [] false ⟨0⟩).tasks = []) :=
  have hret : (ThreadPool.mk 1 1 1 0 0 [] false ⟨0⟩).WaitForTasksReturns
      (ThreadPool.mk 1 1 1 0 0 [] false ⟨0⟩) :=
    ⟨Relation.ReflTransGen.refl, rfl⟩
  ⟨hret, waitForTasks_resumes_then_drains _ _ hret⟩

/-- C4: Pause and Resume are idempotent state transitions: a second
Pause before a Resume changes nothing and a second Resume before a Pause
changes nothing, so Pause Pause Resume equals Pause Resume (one resume
fully unblocks) and Resume Resume Pause equals Resume Pause (extra
resumes do not pre-cancel a pause); a Pause on an unpaused pool enqueues
exactly thread-count pause tasks and raises the flag, and a Resume on a
paused pool releases the pause semaphore by exactly thread-count and
lowers the flag. -/
theorem pause_resume_idempotent_protocol (p : ThreadPool) :
    p.Pause.Pause = p.Pause ∧
    p.Resume.Resume = p.Resume ∧
    p.Pause.Pause.Resume = p.Pause.Resume ∧
    p.Resume.Resume.Pause = p.Resume.Pause ∧
    (p.is_paused = false →
      (p.Pause).tasks.count PoolTask.pauseTask
          = p.tasks.count PoolTask.pauseTask + p.thread_count ∧
      (p.Pause).is_paused = true) ∧
    (p.is_paused = true → p.pause_sem.counter + p.thread_count < SIZE_T_MOD →
      (p.Resume).pause_sem.counter = p.pause_sem.counter + p.thread_count ∧
      (p.Resume).is_paused = false) := by
  have hPP : p.Pause.Pause = p.Pause := by
    by_cases hp : p.is_paused = true
    · simp [ThreadPool.Pause, hp]
    · simp [ThreadPool.Pause, hp]
  have hRR : p.Resume.Resume = p.Resume := by
    by_cases hp : p.is_paused = false
    · simp [ThreadPool.Resume, hp]
    · simp [ThreadPool.Resume, hp]
  refine ⟨hPP, hRR, by rw [hPP], by rw [hRR], ?_, ?_⟩
  · intro hp
    constructor
    · unfold ThreadPool.Pause
      rw [if_neg (by simp [hp])]
      have hsl := (submitLoop_spec p PoolTask.pauseTask p.thread_count).1
      show (p.submitLoop PoolTask.pauseTask p.thread_count).tasks.count PoolTask.pauseTask
          = p.tasks.count PoolTask.pauseTask + p.thread_count
      rw [hsl]
      simp
    · unfold ThreadPool.Pause
      rw [if_neg (by simp [hp])]
  · intro hp hover
    unfold ThreadPool.Resume
    rw [if_neg (by simp [hp])]
    refine ⟨?_, rfl⟩
    show (p.pause_sem.ReleaseN p.thread_count).counter
        = p.pause_sem.counter + p.thread_count
    simp only [Semaphore.ReleaseN]
    have hM : SIZE_T_MOD = 2 ^ 64 := rfl
    rw [hM] at hover ⊢
    omega

/-- Witness for C4 on a two-worker pool, once unpaused and once paused. -/
theorem pause_resume_idempotent_protocol_witness :
    ((ThreadPool.mk 2 2 2 0 0 [] false ⟨0⟩).is_paused = false ∧
      ((ThreadPool.mk 2 2 2 0 0 [] false ⟨0⟩).Pause).tasks.count PoolTask.pauseTask
          = (ThreadPool.mk 2 2 2 0 0 [] false ⟨0⟩).tasks.count PoolTask.pauseTask + 2 ∧
      ((ThreadPool.mk 2 2 2 0 0 [] false ⟨0⟩).Pause).is_paused = true) ∧
    ((ThreadPool.mk 2 2 2 0 0 [] true ⟨0⟩).is_paused = true ∧
      (ThreadPool.mk 2 2 2 0 0 [] true ⟨0⟩).pause_sem.counter + 2 < SIZE_T_MOD ∧
      ((ThreadPool.mk 2 2 2 0 0 [] true ⟨0⟩).Resume).pause_sem.counter
          = (ThreadPool.mk 2 2 2 0 0 [] true ⟨0⟩).pause_sem.counter + 2 ∧
      ((ThreadPool.mk 2 2 2 0 0 [] true ⟨0⟩).Resume).is_paused = false) :=
  ⟨⟨rfl,
      ((pause_resume_idempotent_protocol (ThreadPool.mk 2 2 2 0 0 [] false ⟨0⟩)).2.2.2.2.1
        rfl).1,
      ((pause_resume_idempotent_protocol (ThreadPool.mk 2 2 2 0 0 [] false ⟨0⟩)).2.2.2.2.1
        rfl).2⟩,
    ⟨rfl, by decide,
      ((pause_resume_idempotent_protocol (ThreadPool.mk 2 2 2 0 0 [] true ⟨0⟩)).2.2.2.2.2
        rfl (by decide)).1,
      ((pause_resume_idempotent_protocol (ThreadPool.mk 2 2 2 0 0 [] true ⟨0⟩)).2.2.2.2.2
        rfl (by decide)).2⟩⟩

/-- C1: with no concurrent resize, and away from the overflowing
thread-count arithmetic the design treats as misuse, a completed
SetNumThreads call leaves the pool with exactly num_threads registered
workers: growing spawns the exact difference, shrinking injects the
exact difference of terminate-self tasks and joins that many workers
before returning, an equal count changes nothing, and the recorded
thread count is the value just passed in. -/
theorem setNumThreads_resizes_exactly (p q : ThreadPool) (n : Nat)
    (hn : n < SIZE_T_MOD) (hc : p.thread_count < SIZE_T_MOD)
    (hsmall : ((n : Int) - (p.thread_count : Int)).natAbs < 2 ^ 63)
    (hlive : p.live = p.thread_count)
    (hsum : p.live = p.running + p.blocked + p.joinable)
    (hret : p.SetNumThreadsReturns n q) :
    q.live = n ∧ q.thread_count = n := by
  have hd := setNumDiff_exact n p.thread_count hn hc hsmall
  unfold ThreadPool.SetNumThreadsReturns at hret
  by_cases hlt : p.thread_count < n
  · rw [if_pos hlt] at hret
    subst hret
    refine ⟨?_, rfl⟩
    show (p.CreateThreads (setNumDiff n p.thread_count)).live = n
    simp only [ThreadPool.CreateThreads]
    omega
  · rw [if_neg hlt] at hret
    obtain ⟨r, hrem, hq⟩ := hret
    subst hq
    unfold ThreadPool.RemoveThreadsReturns at hrem
    obtain ⟨s1, s2, s3, s4, s5, s6, s7, s8⟩ :=
      submitLoop_spec p PoolTask.terminateTask (setNumDiff n p.thread_count)
    have hres := removeSteps_spec hrem (by dsimp only; rw [s3, s4, s5, s6]; exact hsum)
    have hcons : r.live + setNumDiff n p.thread_count
        = (p.submitLoop PoolTask.terminateTask (setNumDiff n p.thread_count)).live + 0 :=
      hres.2.1
    rw [s3] at hcons
    refine ⟨?_, rfl⟩
    show r.live = n
    omega

/-- Witness for C1: shrinking a two-worker pool to one worker, with the
terminate-self task executed and the exiting worker joined. -/
theorem setNumThreads_resizes_exactly_witness :
    (1 : Nat) < SIZE_T_MOD ∧
    (ThreadPool.mk 2 2 2 0 0 [] false ⟨0⟩).thread_count < SIZE_T_MOD ∧
    ((1 : Int) - ((ThreadPool.mk 2 2 2 0 0 [] false ⟨0⟩).thread_count : Int)).natAbs
        < 2 ^ 63 ∧
    (ThreadPool.mk 2 2 2 0 0 [] false ⟨0⟩).live
        = (ThreadPool.mk 2 2 2 0 0 [] false ⟨0⟩).thread_count ∧
    (ThreadPool.mk 2 2 2 0 0 [] false ⟨0⟩).live
        = (ThreadPool.mk 2 2 2 0 0 [] false ⟨0⟩).running
            + (ThreadPool.mk 2 2 2 0 0 [] false ⟨0⟩).blocked
            + (ThreadPool.mk 2 2 2 0 0 [] false ⟨0⟩).joinable ∧
    (ThreadPool.mk 2 2 2 0 0 [] false ⟨0⟩).SetNumThreadsReturns 1
        (ThreadPool.mk 1 1 1 0 0 [] false ⟨0⟩) ∧
    ((ThreadPool.mk 1 1 1 0 0 [] false ⟨0⟩).live = 1 ∧
      (ThreadPool.mk 1 1 1 0 0 [] false ⟨0⟩).thread_count = 1) :=
  have w1 : WorkerStep (ThreadPool.mk 2 2 2 0 0 [PoolTask.terminateTask] false ⟨0⟩)
      (ThreadPool.mk 2 2 1 0 1 [] false ⟨0⟩) :=
    WorkerStep.terminate (ThreadPool.mk 2 2 2 0 0 [PoolTask.terminateTask] false ⟨0⟩)
      [] (by decide) rfl
  have r1 : RemoveStep
      ((ThreadPool.mk 2 2 2 0 0 [PoolTask.terminateTask] false ⟨0⟩), 1)
      ((ThreadPool.mk 2 2 1 0 1 [] false ⟨0⟩), 1) :=
    RemoveStep.worker _ _ 1 w1
  have r2 : RemoveStep ((ThreadPool.mk 2 2 1 0 1 [] false ⟨0⟩), 1)
      ((ThreadPool.mk 2 1 1 0 0 [] false ⟨0⟩), 0) :=
    RemoveStep.join (ThreadPool.mk 2 2 1 0 1 [] false ⟨0⟩) 1 (by decide) (by decide)
  have hret : (ThreadPool.mk 2 2 2 0 0 [] false ⟨0⟩).SetNumThreadsReturns 1
      (ThreadPool.mk 1 1 1 0 0 [] false ⟨0⟩) := by
    unfold ThreadPool.SetNumThreadsReturns
    rw [if_neg (by decide)]
    refine ⟨ThreadPool.mk 2 1 1 0 0 [] false ⟨0⟩, ?_, rfl⟩
    unfold ThreadPool.RemoveThreadsReturns
    have hd : setNumDiff 1 (ThreadPool.mk 2 2 2 0 0 [] false ⟨0⟩).thread_count = 1 := by
      decide
    rw [hd]
    exact (Relation.ReflTransGen.single r1).tail r2
  ⟨by decide, by decide, by decide, rfl, rfl, hret,
    setNumThreads_resizes_exactly _ _ 1 (by decide) (by decide) (by decide) rfl rfl hret⟩

end EK
